import Mathlib

/-!
Shallow embedding of the streaming windowed-transcription pipeline of
`src/main.rs` (sasayaki): the bounded audio sample accumulator filled by the
GStreamer `new_sample` callback, the transcription worker loop that snapshots
the accumulator and carries over a tail when the window was full, the
`whisper` invocation that emits exactly one caption event per trigger, the
capacity-1 tick channel between the timer and the worker, and the caption
window's label handling (`fix_label` / the `result_receiver.attach` closure).

Audio samples are `f32` values that the pipeline only moves around and never
inspects, so the embedding is polymorphic in the sample type `α`.  The
recognition engine (`WhisperContext::full` plus segment extraction) is
abstracted as a pure function from a sample slice to the list of segment
texts, matching the spec's external-collaborator boundary.  A Rust panic
(slice index out of bounds in the worker's carry-over) is modelled as `none`.
-/

namespace Sasayaki

variable {α : Type}

/-- `let audio_buf_size = 16000 * args.length / 1000;` (`main`). -/
def audio_buf_size (lengthMs : Nat) : Nat := 16000 * lengthMs / 1000

/-- `let max_buf_size = audio_buf_size * 2;` (`main`): accumulator capacity. -/
def max_buf_size (lengthMs : Nat) : Nat := audio_buf_size lengthMs * 2

/-- `let keep_size = 16000 * args.keep / 1000;` (worker loop). -/
def keep_size (keepMs : Nat) : Nat := 16000 * keepMs / 1000

/-- The buffer update of the `new_sample` callback in `create_pipeline`:
`buf.extend(samples); if buf_len > buf_size { *buf = buf.split_off(buf_len - buf_size) }`.
`VecDeque::split_off(at)` leaves `[0, at)` and returns `[at, len)`, so the
assignment keeps exactly the last `buf_size` elements. -/
def push (buf_size : Nat) (buf samples : List α) : List α :=
  if buf_size < (buf ++ samples).length then
    (buf ++ samples).drop ((buf ++ samples).length - buf_size)
  else
    buf ++ samples

/-- The locked block of the transcription worker loop in `main`:
copy the whole buffer into `audio_data`; if `buf.len() >= audio_buf_size`,
clear the buffer and re-extend it with `audio_data[(len - keep_size)..]`;
otherwise leave the buffer untouched.  Result: `(audio_data, full, new buffer)`.
When `keep_size > audio_data.len()` the slice start underflows and the thread
panics, modelled as `none`. -/
def drainWindow (audioBufSize keepSize : Nat) (buf : List α) :
    Option (List α × Bool × List α) :=
  if audioBufSize ≤ buf.length then
    if keepSize ≤ buf.length then
      some (buf, true, buf.drop (buf.length - keepSize))
    else
      none
  else
    some (buf, false, buf)

/-- The `whisper` function: runs the engine on `audio_data`, concatenates all
segment texts into `result`, and sends exactly one `(result, fix)` event on
`result_sender`.  The emitted events are returned as a list. -/
def whisper (engine : List α → List String) (audio_data : List α) (fix : Bool) :
    List (String × Bool) :=
  let segments := engine audio_data
  let result := String.join segments
  [(result, fix)]

/- Helper lemmas about the accumulator. -/

lemma push_eq_drop (C : Nat) (buf xs : List α) :
    push C buf xs = (buf ++ xs).drop ((buf ++ xs).length - C) := by
  unfold push
  split
  · rfl
  · rename_i h
    rw [Nat.sub_eq_zero_of_le (Nat.le_of_not_lt h), List.drop_zero]

lemma push_length_le (C : Nat) (buf xs : List α) : (push C buf xs).length ≤ C := by
  rw [push_eq_drop, List.length_drop]
  omega

lemma drop_length_sub (C : Nat) (l : List α) :
    l.drop (l.length - C) = (l.reverse.take C).reverse := by
  rw [List.take_reverse, List.reverse_reverse]

lemma take_append_take (C : Nat) (a b : List α) :
    (a ++ b.take C).take C = (a ++ b).take C := by
  rw [List.take_append_eq_append_take, List.take_append_eq_append_take,
    List.take_take, Nat.min_eq_left (Nat.sub_le _ _)]

lemma drop_sub_append (C : Nat) (S c : List α) :
    (S.drop (S.length - C) ++ c).drop ((S.drop (S.length - C) ++ c).length - C) =
      (S ++ c).drop ((S ++ c).length - C) := by
  rw [drop_length_sub C S, drop_length_sub, drop_length_sub]
  congr 1
  rw [List.reverse_append, List.reverse_reverse, List.reverse_append,
    take_append_take]

lemma foldl_push_eq (C : Nat) (chunks : List (List α)) :
    ∀ S : List α,
      chunks.foldl (push C) (S.drop (S.length - C)) =
        (S ++ chunks.flatten).drop ((S ++ chunks.flatten).length - C) := by
  induction chunks with
  | nil => intro S; simp
  | cons c cs ih =>
    intro S
    rw [List.foldl_cons, push_eq_drop, drop_sub_append, ih (S ++ c)]
    simp [List.append_assoc]

lemma drainWindow_cases (audioBufSize keepSize : Nat) (buf snapshot buf' : List α)
    (full : Bool)
    (h : drainWindow audioBufSize keepSize buf = some (snapshot, full, buf')) :
    snapshot = buf ∧ buf'.length ≤ buf.length ∧ List.IsSuffix buf' buf := by
  unfold drainWindow at h
  split at h
  · split at h
    · simp only [Option.some.injEq, Prod.mk.injEq] at h
      obtain ⟨h1, _, h3⟩ := h
      refine ⟨h1.symm, ?_, ?_⟩
      · rw [← h3, List.length_drop]; omega
      · rw [← h3]; exact List.drop_suffix _ _
    · exact absurd h (by simp)
  · simp only [Option.some.injEq, Prod.mk.injEq] at h
    obtain ⟨h1, _, h3⟩ := h
    subst h3
    exact ⟨h1.symm, Nat.le_refl _, List.suffix_refl _⟩

/-- C1: if `drainWindow` returns `full = true`, the accumulator afterwards is
exactly the last `min(keepSamples, snapshot.length)` samples of the returned
snapshot, in their original order, and nothing else. -/
theorem drainWindow_full_carry (audioBufSize keepSize : Nat)
    (buf snapshot buf' : List α)
    (h : drainWindow audioBufSize keepSize buf = some (snapshot, true, buf')) :
    buf' = snapshot.drop (snapshot.length - min keepSize snapshot.length) := by
  unfold drainWindow at h
  split at h
  · split at h
    · rename_i hk
      simp only [Option.some.injEq, Prod.mk.injEq] at h
      obtain ⟨h1, _, h3⟩ := h
      subst h1
      rw [← h3, Nat.min_eq_left hk]
    · exact absurd h (by simp)
  · simp only [Option.some.injEq, Prod.mk.injEq] at h
    exact absurd h.2.1 (by simp)

/-- Witness for C1 at `lengthMs = keepMs = 1`, a 20-sample accumulator. -/
theorem drainWindow_full_carry_witness :
    ((List.range 20).drop 4 : List Nat) =
      (List.range 20).drop
        ((List.range 20).length - min (keep_size 1) (List.range 20).length) :=
  drainWindow_full_carry (audio_buf_size 1) (keep_size 1) (List.range 20)
    (List.range 20) ((List.range 20).drop 4) (by decide)

/-- C3: for any sequence of pushes starting from the empty accumulator, the
length never exceeds the capacity `C = 2 × windowSamples`, and the retained
contents are exactly the most recently pushed `C` samples of everything
pushed, in capture order (the push is a total function, never a reject). -/
theorem push_bounded_tail (lengthMs : Nat) (chunks : List (List α)) :
    (chunks.foldl (push (max_buf_size lengthMs)) []).length ≤ max_buf_size lengthMs ∧
    chunks.foldl (push (max_buf_size lengthMs)) [] =
      chunks.flatten.drop (chunks.flatten.length - max_buf_size lengthMs) := by
  have h := foldl_push_eq (max_buf_size lengthMs) chunks []
  simp only [List.drop_nil, List.nil_append, List.length_nil, Nat.zero_sub] at h
  refine ⟨?_, h⟩
  rw [h, List.length_drop]
  omega

/-- C4 counterexample: with `lengthMs = 1` (`windowSamples = 16`) and
`keepMs = 2` (`keepSamples = 32`), a 20-sample accumulator is full
(`20 ≥ 16`) and `keepSamples > snapshot.length`, and `drainWindow` panics
(`none`) instead of clamping and re-seeding the whole snapshot. -/
theorem drainWindow_keep_overflow_cex :
    audio_buf_size 1 ≤ (List.range 20 : List Nat).length ∧
    (List.range 20 : List Nat).length < keep_size 2 ∧
    drainWindow (audio_buf_size 1) (keep_size 2) (List.range 20 : List Nat) = none ∧
    drainWindow (audio_buf_size 1) (keep_size 2) (List.range 20 : List Nat) ≠
      some (List.range 20, true, List.range 20) := by
  decide

/-- C4 amended: whenever the accumulator is full (`≥ windowSamples`) but holds
fewer than `keepSamples` samples, the carry-over slice index underflows and
the worker panics; no clamping to the full snapshot takes place. -/
theorem drainWindow_keep_overflow (audioBufSize keepSize : Nat) (buf : List α)
    (h1 : audioBufSize ≤ buf.length) (h2 : buf.length < keepSize) :
    drainWindow audioBufSize keepSize buf = none := by
  unfold drainWindow
  rw [if_pos h1, if_neg (Nat.not_le.mpr h2)]

/-- Witness for the amended C4. -/
theorem drainWindow_keep_overflow_witness :
    drainWindow (audio_buf_size 1) (keep_size 2) (List.range 20 : List Nat) = none :=
  drainWindow_keep_overflow (audio_buf_size 1) (keep_size 2) (List.range 20)
    (by decide) (by decide)

/-- C7: when the accumulator holds fewer than `windowSamples` samples
(including the empty accumulator), `drainWindow` returns the current contents
as the snapshot with `full = false`, leaves the accumulator unchanged, and
cannot fail. -/
theorem drainWindow_not_full (audioBufSize keepSize : Nat) (buf : List α)
    (h : buf.length < audioBufSize) :
    drainWindow audioBufSize keepSize buf = some (buf, false, buf) := by
  unfold drainWindow
  rw [if_neg (Nat.not_le.mpr h)]

/-- Witness for C7 on the empty accumulator. -/
theorem drainWindow_not_full_witness :
    drainWindow (audio_buf_size 1) (keep_size 1) ([] : List Nat) =
      some ([], false, []) :=
  drainWindow_not_full (audio_buf_size 1) (keep_size 1) [] (by decide)

/- The transcription worker loop (`thread::spawn` in `main`), modelled as a
state machine over the interleaving of `new_sample` pushes and delivered
ticks.  The mutex serialises `push` and the worker's locked block, so an
execution is a sequence of atomic operations. -/

/-- One atomic operation on the shared accumulator: a `new_sample` callback
delivering a chunk, or a tick delivered to the worker loop. -/
inductive Op (α : Type) where
  | push (samples : List α)
  | trigger
  deriving DecidableEq

/-- What one iteration of the worker loop did: the snapshot it copied, the
`fix` flag it read, the `full` outcome it observed, and the caption events
`whisper` sent for it. -/
structure TriggerRecord (α : Type) where
  snapshot : List α
  fix : Bool
  full : Bool
  events : List (String × Bool)
  deriving DecidableEq

/-- The state the worker loop threads through iterations: the shared buffer
and the closure-captured `fix_next` flag. -/
structure WorkerState (α : Type) where
  buf : List α
  fix_next : Bool
  deriving DecidableEq

/-- Cold start: `VecDeque::new()` and `let mut fix_next = false`. -/
def initState : WorkerState α := ⟨[], false⟩

/-- Runs a sequence of operations.  A trigger performs the worker-loop body:
`let fix = fix_next`, the locked `drainWindow` block, then
`whisper(..., &audio_data, ..., fix)`.  `none` models a worker panic. -/
def runOps (lengthMs keepMs : Nat) (engine : List α → List String) :
    List (Op α) → WorkerState α → Option (WorkerState α × List (TriggerRecord α))
  | [], s => some (s, [])
  | Op.push samples :: ops, s =>
      runOps lengthMs keepMs engine ops
        { buf := push (max_buf_size lengthMs) s.buf samples, fix_next := s.fix_next }
  | Op.trigger :: ops, s =>
      match drainWindow (audio_buf_size lengthMs) (keep_size keepMs) s.buf with
      | none => none
      | some (audio_data, full, buf') =>
        match runOps lengthMs keepMs engine ops { buf := buf', fix_next := full } with
        | none => none
        | some (s', records) =>
            some (s', { snapshot := audio_data, fix := s.fix_next, full := full,
                        events := whisper engine audio_data s.fix_next } :: records)

/-- Concatenation of every chunk the audio source pushed, in capture order. -/
def pushedSamples : List (Op α) → List α
  | [] => []
  | Op.push samples :: ops => samples ++ pushedSamples ops
  | Op.trigger :: ops => pushedSamples ops

/- Concrete two-trigger execution used by the witnesses: `lengthMs = 1`
(`windowSamples = 16`, capacity 32), `keepMs = 1` (`keepSamples = 16`),
an engine that transcribes everything to silence. -/

def cexEngine : List Nat → List String := fun _ => []

def cexOps : List (Op Nat) := [Op.push (List.range 20), Op.trigger, Op.trigger]

def cexFin : WorkerState Nat := { buf := (List.range 20).drop 4, fix_next := true }

def cexRec1 : TriggerRecord Nat :=
  { snapshot := List.range 20, fix := false, full := true, events := [("", false)] }

def cexRec2 : TriggerRecord Nat :=
  { snapshot := (List.range 20).drop 4, fix := true, full := true,
    events := [("", true)] }

lemma dropLast_cons_cons (a b : Bool) (l : List Bool) :
    (a :: b :: l).dropLast = a :: (b :: l).dropLast := rfl

lemma runOps_fix_chain (lengthMs keepMs : Nat) (engine : List α → List String) :
    ∀ (ops : List (Op α)) (s fin : WorkerState α) (records : List (TriggerRecord α)),
      runOps lengthMs keepMs engine ops s = some (fin, records) →
      records.map TriggerRecord.fix =
        (s.fix_next :: records.map TriggerRecord.full).dropLast := by
  intro ops
  induction ops with
  | nil =>
    intro s fin records h
    simp only [runOps, Option.some.injEq, Prod.mk.injEq] at h
    rw [← h.2]
    rfl
  | cons op ops ih =>
    intro s fin records h
    cases op with
    | push samples =>
      simp only [runOps] at h
      exact ih ⟨push (max_buf_size lengthMs) s.buf samples, s.fix_next⟩ fin records h
    | trigger =>
      simp only [runOps] at h
      cases hd : drainWindow (audio_buf_size lengthMs) (keep_size keepMs) s.buf with
      | none => rw [hd] at h; simp at h
      | some res =>
        obtain ⟨audio_data, full, buf'⟩ := res
        rw [hd] at h
        dsimp only at h
        cases hr : runOps lengthMs keepMs engine ops { buf := buf', fix_next := full } with
        | none => rw [hr] at h; simp at h
        | some p =>
          obtain ⟨s', recs⟩ := p
          rw [hr] at h
          dsimp only at h
          simp only [Option.some.injEq, Prod.mk.injEq] at h
          rw [← h.2]
          have ihh := ih _ _ _ hr
          simp only [List.map_cons]
          rw [ihh]
          rfl

lemma runOps_events_shape (lengthMs keepMs : Nat) (engine : List α → List String) :
    ∀ (ops : List (Op α)) (s fin : WorkerState α) (records : List (TriggerRecord α)),
      runOps lengthMs keepMs engine ops s = some (fin, records) →
      ∀ r ∈ records, r.events = [(String.join (engine r.snapshot), r.fix)] := by
  intro ops
  induction ops with
  | nil =>
    intro s fin records h
    simp only [runOps, Option.some.injEq, Prod.mk.injEq] at h
    rw [← h.2]
    intro r hr
    exact absurd hr (List.not_mem_nil r)
  | cons op ops ih =>
    intro s fin records h
    cases op with
    | push samples =>
      simp only [runOps] at h
      exact ih ⟨push (max_buf_size lengthMs) s.buf samples, s.fix_next⟩ fin records h
    | trigger =>
      simp only [runOps] at h
      cases hd : drainWindow (audio_buf_size lengthMs) (keep_size keepMs) s.buf with
      | none => rw [hd] at h; simp at h
      | some res =>
        obtain ⟨audio_data, full, buf'⟩ := res
        rw [hd] at h
        dsimp only at h
        cases hr : runOps lengthMs keepMs engine ops { buf := buf', fix_next := full } with
        | none => rw [hr] at h; simp at h
        | some p =>
          obtain ⟨s', recs⟩ := p
          rw [hr] at h
          dsimp only at h
          simp only [Option.some.injEq, Prod.mk.injEq] at h
          rw [← h.2]
          intro r hr'
          rcases List.mem_cons.mp hr' with hr' | hr'
          · subst hr'
            rfl
          · exact ih _ _ _ hr r hr'

lemma events_map_snd (engine : List α → List String)
    (records : List (TriggerRecord α))
    (h : ∀ r ∈ records, r.events = [(String.join (engine r.snapshot), r.fix)]) :
    (records.flatMap TriggerRecord.events).map Prod.snd =
      records.map TriggerRecord.fix := by
  induction records with
  | nil => rfl
  | cons r rs ih =>
    simp only [List.flatMap_cons, List.map_append, List.map_cons]
    rw [h r (List.mem_cons_self r rs)]
    rw [ih (fun x hx => h x (List.mem_cons_of_mem r hx))]
    rfl

lemma runOps_buf_bound (lengthMs keepMs : Nat) (engine : List α → List String) :
    ∀ (ops : List (Op α)) (s fin : WorkerState α) (records : List (TriggerRecord α)),
      runOps lengthMs keepMs engine ops s = some (fin, records) →
      s.buf.length ≤ max_buf_size lengthMs →
      (∀ r ∈ records, r.snapshot.length ≤ max_buf_size lengthMs) ∧
        fin.buf.length ≤ max_buf_size lengthMs := by
  intro ops
  induction ops with
  | nil =>
    intro s fin records h hs
    simp only [runOps, Option.some.injEq, Prod.mk.injEq] at h
    rw [← h.1, ← h.2]
    exact ⟨fun r hr => absurd hr (List.not_mem_nil r), hs⟩
  | cons op ops ih =>
    intro s fin records h hs
    cases op with
    | push samples =>
      simp only [runOps] at h
      exact ih ⟨push (max_buf_size lengthMs) s.buf samples, s.fix_next⟩ fin records h
        (push_length_le _ _ _)
    | trigger =>
      simp only [runOps] at h
      cases hd : drainWindow (audio_buf_size lengthMs) (keep_size keepMs) s.buf with
      | none => rw [hd] at h; simp at h
      | some res =>
        obtain ⟨audio_data, full, buf'⟩ := res
        rw [hd] at h
        dsimp only at h
        cases hr : runOps lengthMs keepMs engine ops { buf := buf', fix_next := full } with
        | none => rw [hr] at h; simp at h
        | some p =>
          obtain ⟨s', recs⟩ := p
          rw [hr] at h
          dsimp only at h
          simp only [Option.some.injEq, Prod.mk.injEq] at h
          obtain ⟨hsnap, hlen, _⟩ := drainWindow_cases _ _ _ _ _ _ hd
          have iha := ih _ _ _ hr (Nat.le_trans hlen hs)
          rw [← h.1, ← h.2]
          refine ⟨?_, iha.2⟩
          intro r hr'
          rcases List.mem_cons.mp hr' with hr' | hr'
          · subst hr'
            simpa [hsnap] using hs
          · exact iha.1 r hr'

lemma suffix_append_right {l₁ l₂ t : List α} (h : List.IsSuffix l₁ l₂) :
    List.IsSuffix (l₁ ++ t) (l₂ ++ t) := by
  obtain ⟨w, hw⟩ := h
  exact ⟨w, by rw [← List.append_assoc, hw]⟩

lemma runOps_buf_suffix (lengthMs keepMs : Nat) (engine : List α → List String) :
    ∀ (ops : List (Op α)) (s fin : WorkerState α) (records : List (TriggerRecord α))
      (stream : List α),
      runOps lengthMs keepMs engine ops s = some (fin, records) →
      List.IsSuffix s.buf stream →
      List.IsSuffix fin.buf (stream ++ pushedSamples ops) := by
  intro ops
  induction ops with
  | nil =>
    intro s fin records stream h hs
    simp only [runOps, Option.some.injEq, Prod.mk.injEq] at h
    rw [← h.1]
    simpa [pushedSamples] using hs
  | cons op ops ih =>
    intro s fin records stream h hs
    cases op with
    | push samples =>
      simp only [runOps] at h
      have hsuf : List.IsSuffix (push (max_buf_size lengthMs) s.buf samples)
          (stream ++ samples) := by
        rw [push_eq_drop]
        exact (List.drop_suffix _ _).trans (suffix_append_right hs)
      have := ih _ _ _ _ h hsuf
      simpa [pushedSamples, List.append_assoc] using this
    | trigger =>
      simp only [runOps] at h
      cases hd : drainWindow (audio_buf_size lengthMs) (keep_size keepMs) s.buf with
      | none => rw [hd] at h; simp at h
      | some res =>
        obtain ⟨audio_data, full, buf'⟩ := res
        rw [hd] at h
        dsimp only at h
        cases hr : runOps lengthMs keepMs engine ops { buf := buf', fix_next := full } with
        | none => rw [hr] at h; simp at h
        | some p =>
          obtain ⟨s', recs⟩ := p
          rw [hr] at h
          dsimp only at h
          simp only [Option.some.injEq, Prod.mk.injEq] at h
          obtain ⟨_, _, hsuf⟩ := drainWindow_cases _ _ _ _ _ _ hd
          have := ih _ _ _ _ hr (hsuf.trans hs)
          rw [← h.1]
          simpa [pushedSamples] using this

/-- C2: in any execution from cold start, the `isCorrection` flags attached to
the caption events, in emission order, are `false` for the first trigger and
thereafter the `full` result of the previous trigger. -/
theorem fix_flag_chain (lengthMs keepMs : Nat) (engine : List α → List String)
    (ops : List (Op α)) (fin : WorkerState α) (records : List (TriggerRecord α))
    (h : runOps lengthMs keepMs engine ops initState = some (fin, records)) :
    (records.flatMap TriggerRecord.events).map Prod.snd =
      (false :: records.map TriggerRecord.full).dropLast := by
  rw [events_map_snd engine records (runOps_events_shape lengthMs keepMs engine ops
    initState fin records h)]
  exact runOps_fix_chain lengthMs keepMs engine ops initState fin records h

/-- Witness for C2: two triggers; the first event carries `false`, the second
carries the first trigger's `full = true`. -/
theorem fix_flag_chain_witness :
    ([cexRec1, cexRec2].flatMap TriggerRecord.events).map Prod.snd =
      (false :: [cexRec1, cexRec2].map TriggerRecord.full).dropLast :=
  fix_flag_chain 1 1 cexEngine cexOps cexFin [cexRec1, cexRec2] (by decide)

/-- C6 counterexample: from cold start, pushing 20 samples with
`windowSamples = 16` (capacity 32) and triggering yields a snapshot of
length 20 > `windowSamples`, so snapshots are not bounded by
`windowSamples`. -/
theorem snapshot_bounded_cex :
    runOps 1 1 cexEngine cexOps initState = some (cexFin, [cexRec1, cexRec2]) ∧
    audio_buf_size 1 < cexRec1.snapshot.length := by
  decide

/-- C6 amended: every snapshot handed to the transcription invoker has length
at most the accumulator capacity `2 × windowSamples`. -/
theorem snapshot_bounded (lengthMs keepMs : Nat) (engine : List α → List String)
    (ops : List (Op α)) (fin : WorkerState α) (records : List (TriggerRecord α))
    (h : runOps lengthMs keepMs engine ops initState = some (fin, records)) :
    ∀ r ∈ records, r.snapshot.length ≤ max_buf_size lengthMs :=
  (runOps_buf_bound lengthMs keepMs engine ops initState fin records h
    (Nat.zero_le _)).1

/-- Witness for the amended C6. -/
theorem snapshot_bounded_witness :
    cexRec1.snapshot.length ≤ max_buf_size 1 :=
  snapshot_bounded 1 1 cexEngine cexOps cexFin [cexRec1, cexRec2] (by decide)
    cexRec1 (by decide)

/-- C8: each processed trigger emits exactly one caption event — a pair of
the concatenated segment texts (possibly the empty string) and the trigger's
`fix` flag — so the number of emitted events equals the number of processed
triggers; none is dropped. -/
theorem one_event_per_trigger (lengthMs keepMs : Nat) (engine : List α → List String)
    (ops : List (Op α)) (fin : WorkerState α) (records : List (TriggerRecord α))
    (h : runOps lengthMs keepMs engine ops initState = some (fin, records)) :
    (∀ r ∈ records, r.events = [(String.join (engine r.snapshot), r.fix)]) ∧
      (records.flatMap TriggerRecord.events).length = records.length := by
  have hshape := runOps_events_shape lengthMs keepMs engine ops initState fin records h
  refine ⟨hshape, ?_⟩
  have := congrArg List.length (events_map_snd engine records hshape)
  simpa using this

/-- Witness for C8 on the concrete two-trigger execution; the engine
transcribes silence, so both events carry the empty string yet are emitted. -/
theorem one_event_per_trigger_witness :
    ([cexRec1, cexRec2].flatMap TriggerRecord.events).length =
      [cexRec1, cexRec2].length :=
  (one_event_per_trigger 1 1 cexEngine cexOps cexFin [cexRec1, cexRec2] (by decide)).2

/-- C10: after any interleaving of pushes and triggers from cold start, the
accumulator is a contiguous suffix of the concatenation of all samples ever
pushed — no sample is duplicated, reordered, or fabricated. -/
theorem buf_suffix_of_pushed (lengthMs keepMs : Nat) (engine : List α → List String)
    (ops : List (Op α)) (fin : WorkerState α) (records : List (TriggerRecord α))
    (h : runOps lengthMs keepMs engine ops initState = some (fin, records)) :
    List.IsSuffix fin.buf (pushedSamples ops) := by
  have := runOps_buf_suffix lengthMs keepMs engine ops initState fin records []
    h (List.suffix_refl _)
  simpa using this

/-- Witness for C10. -/
theorem buf_suffix_of_pushed_witness :
    List.IsSuffix cexFin.buf (pushedSamples cexOps) :=
  buf_suffix_of_pushed 1 1 cexEngine cexOps cexFin [cexRec1, cexRec2] (by decide)

/- The caption window (`struct Window` and the `result_receiver.attach`
closure).  Only the text content matters for the claims: the state is the
scrollback label texts, oldest first, and the current label's text. -/

/-- `const MAX_SCROLLBACKS: usize = 100;`. -/
def MAX_SCROLLBACKS : Nat := 100

/-- The presentation state: the texts of the scrollback labels in `vbox`
order, and the text of the current (most recently appended) label. -/
structure UIWindow where
  scrollbacks : List String
  label : String
  deriving DecidableEq

/-- `Window::fix_label`: pushes the current label onto the scrollbacks, pops
(and removes from the box) the oldest ones while more than `MAX_SCROLLBACKS`
remain, then appends a fresh empty label which becomes current. -/
def fix_label (w : UIWindow) : UIWindow :=
  { scrollbacks := (w.scrollbacks ++ [w.label]).drop
      ((w.scrollbacks ++ [w.label]).length - MAX_SCROLLBACKS),
    label := "" }

/-- The `result_receiver.attach` closure: on `(text, fix)` it calls
`fix_label` when `fix` is true, then `win.label.set_text(&text)`.  (The
deferred scroll-to-bottom idle callback touches no caption state.) -/
def on_result (w : UIWindow) (text : String) (fix : Bool) : UIWindow :=
  if fix then { fix_label w with label := text } else { w with label := text }

/-- C5 counterexample: with one visible caption showing `hello` and empty
history, an `isCorrection = true` event does not overwrite the visible
caption in place — it moves `hello` into history and creates a new entry —
while an `isCorrection = false` event overwrites in place and adds nothing
to history. -/
theorem on_result_cex :
    (on_result ⟨[], "hello"⟩ "world" true).scrollbacks = ["hello"] ∧
    (on_result ⟨[], "hello"⟩ "world" true).scrollbacks ≠ [] ∧
    on_result ⟨[], "hello"⟩ "bye" false = ⟨[], "bye"⟩ := by
  refine ⟨rfl, ?_, rfl⟩
  decide

/-- C5 amended: when `isCorrection` is true the consumer finalizes the
currently visible caption into history (evicting the oldest entries beyond
`MAX_SCROLLBACKS`) and starts a new entry showing the event's text; when
`isCorrection` is false it replaces the text of the currently visible caption
in place, creating no new entry. -/
theorem on_result_semantics (w : UIWindow) (text : String) :
    on_result w text true =
      { scrollbacks := (w.scrollbacks ++ [w.label]).drop
          ((w.scrollbacks ++ [w.label]).length - MAX_SCROLLBACKS),
        label := text } ∧
    on_result w text false = { w with label := text } :=
  ⟨rfl, rfl⟩

/- The tick channel between the timer callback and the worker
(`sync_channel::<()>(1)` with `tick_sender.try_send(())` and
`tick_receiver.recv()`), modelled by its number of pending messages. -/

/-- Capacity of the trigger channel: `sync_channel::<()>(1)`. -/
def tick_channel_capacity : Nat := 1

/-- `let _ = tick_sender.try_send(());` in the `glib::timeout_add` callback:
enqueues when the buffer has room, otherwise returns immediately with the
message dropped.  It is a total function — the timer context never blocks. -/
def try_send (pending : Nat) : Nat :=
  if pending < tick_channel_capacity then pending + 1 else pending

/-- A channel interaction: a timer tick (`try_send`) or the worker consuming
a pending trigger (`recv`). -/
inductive TickOp where
  | send
  | recv
  deriving DecidableEq

/-- Effect of one interaction on the number of pending triggers. -/
def tickStep (pending : Nat) : TickOp → Nat
  | TickOp.send => try_send pending
  | TickOp.recv => pending - 1

lemma tick_foldl_le (ops : List TickOp) :
    ∀ pending, pending ≤ tick_channel_capacity →
      ops.foldl tickStep pending ≤ tick_channel_capacity := by
  induction ops with
  | nil => intro pending hp; simpa using hp
  | cons op ops ih =>
    intro pending hp
    cases op with
    | send =>
      apply ih
      simp only [tickStep, try_send, tick_channel_capacity] at *
      split <;> omega
    | recv =>
      apply ih
      simp only [tickStep]
      omega

/-- C9: starting from an empty channel, any interleaving of timer ticks and
worker receives leaves at most one trigger pending, and a tick arriving while
one trigger is already pending leaves the channel unchanged — the new trigger
is dropped, not queued. -/
theorem tick_channel_lossy (ops : List TickOp) :
    ops.foldl tickStep 0 ≤ tick_channel_capacity ∧
    try_send tick_channel_capacity = tick_channel_capacity :=
  ⟨tick_foldl_le ops 0 (Nat.zero_le _), rfl⟩

end Sasayaki
